import Mathlib

/-!
Hanzi learning assistant: the character analyser, the submit handler and the animation adapter.

A shallow embedding of `src/lib/hanziAnalyzer.js`, of `handleAnalyze` in `src/App.jsx` and of
the mount effect of `src/components/HanziAnimation.jsx`, followed by the properties proved
about them.

JavaScript strings are sequences of UTF-16 code units, so a string is a list of code units
(natural numbers below `0x10000`).  `String.prototype.split('')`, `length` and a regular
expression without the `u` flag all work on code units, and so does the embedding.
-/

namespace HanziLearning

/-! ## JavaScript strings and values -/

/-- One UTF-16 code unit. -/
abbrev CodeUnit := Nat

/-- A JavaScript string: its UTF-16 code units in order. -/
abbrev JsString := List CodeUnit

/-- UTF-16 encoding of one code point: itself in the basic plane, a surrogate pair above it. -/
def utf16 (c : Char) : List CodeUnit :=
  if c.toNat < 0x10000 then [c.toNat]
  else [0xD800 + (c.toNat - 0x10000) / 0x400, 0xDC00 + (c.toNat - 0x10000) % 0x400]

/-- The JavaScript string denoted by a source literal. -/
def js (s : String) : JsString :=
  s.toList.flatMap utf16

/-- JavaScript values that occur in the analyser: strings, numbers, arrays, plain objects, and
the members an object literal inherits from `Object.prototype` (named by their property key). -/
inductive JsVal where
  | str (s : JsString)
  | num (n : Int)
  | arr (items : List JsVal)
  | obj (fields : List (JsString × JsVal))
  | inherited (name : JsString)

/-- JavaScript truthiness (`ToBoolean`) of a value: the empty string and zero are falsy,
every object is truthy. -/
def JsVal.truthy : JsVal → Bool
  | .str s => !s.isEmpty
  | .num n => n != 0
  | .arr _ => true
  | .obj _ => true
  | .inherited _ => true

/-- Property keys that every object literal inherits from `Object.prototype`
(ECMAScript, Annex B included). -/
def objectPrototypeNames : List JsString :=
  [js "constructor", js "hasOwnProperty", js "isPrototypeOf", js "propertyIsEnumerable",
   js "toLocaleString", js "toString", js "valueOf", js "__proto__",
   js "__defineGetter__", js "__defineSetter__", js "__lookupGetter__", js "__lookupSetter__"]

/-- Evaluation of `table[key]` for an object literal `table`: an own property wins, then the
prototype chain is consulted, otherwise the result is `undefined` (`none`). -/
def getMember {α : Type} (toVal : α → JsVal) (table : List (JsString × α)) (key : JsString) :
    Option JsVal :=
  match table.lookup key with
  | some v => some (toVal v)
  | none => if key ∈ objectPrototypeNames then some (.inherited key) else none

/-- Evaluation of `x || d`, where `none` stands for `undefined`. -/
def jsOr (x : Option JsVal) (d : JsVal) : JsVal :=
  match x with
  | some v => if v.truthy then v else d
  | none => d

/-- An array of strings as a value. -/
def strArr (xs : List JsString) : JsVal :=
  .arr (xs.map .str)

/-! ## The lookup tables of `HanziAnalyzer` -/

/-- The object literal `wubiMap` of `getWubi`. -/
def wubiMap : List (JsString × JsString) :=
  [(js "学", js "IPBF"),
   (js "习", js "NUD"),
   (js "人", js "WWWW"),
   (js "大", js "DDDD"),
   (js "小", js "IHTY"),
   (js "上", js "HHGG"),
   (js "下", js "GHI"),
   (js "中", js "KHK"),
   (js "好", js "VBG"),
   (js "生", js "TGD"),
   (js "字", js "PBF")]

/-- The object literal `structures` of `getStructure`, entries in declaration order. -/
def structures : List (JsString × List JsString) :=
  [(js "左右结构", [js "他", js "们", js "你", js "我", js "好", js "的", js "在", js "是", js "有", js "不"]),
   (js "上下结构", [js "字", js "学", js "生", js "花", js "草", js "笑", js "哭", js "想", js "思", js "意"]),
   (js "左中右结构", [js "谢", js "湖", js "树", js "街", js "做", js "搬", js "脚", js "班", js "辨", js "辩"]),
   (js "上中下结构", [js "意", js "章", js "竟", js "高", js "亮", js "景", js "影", js "营", js "警", js "察"]),
   (js "全包围结构", [js "国", js "园", js "圆", js "因", js "困", js "围", js "图", js "团", js "回", js "四"]),
   (js "半包围结构", [js "同", js "问", js "间", js "闻", js "门", js "闪", js "闭", js "开", js "关", js "这"]),
   (js "独体结构", [js "人", js "大", js "小", js "上", js "下", js "中", js "一", js "二", js "三", js "十"])]

/-- The object literal `wuxingMap` of `getWuxing`, entries in declaration order. -/
def wuxingMap : List (JsString × List JsString) :=
  [(js "金", [js "金", js "银", js "铁", js "钢", js "铜", js "锡", js "铝", js "钱", js "针", js "钟"]),
   (js "木", [js "木", js "树", js "林", js "森", js "花", js "草", js "叶", js "根", js "枝", js "果"]),
   (js "水", [js "水", js "河", js "海", js "湖", js "江", js "池", js "雨", js "雪", js "冰", js "泉"]),
   (js "火", [js "火", js "炎", js "热", js "烧", js "烤", js "灯", js "光", js "明", js "亮", js "阳"]),
   (js "土", [js "土", js "地", js "山", js "石", js "岩", js "田", js "园", js "圆", js "城", js "墙"])]

/-- The object literal `meanings` of `getMeaning`. -/
def meanings : List (JsString × JsString) :=
  [(js "人", js "人类，人民"),
   (js "大", js "大小的大，巨大"),
   (js "小", js "大小的小，微小"),
   (js "上", js "方位词，向上"),
   (js "下", js "方位词，向下"),
   (js "中", js "中间，中央"),
   (js "一", js "数字一，第一"),
   (js "二", js "数字二，第二"),
   (js "三", js "数字三，第三"),
   (js "十", js "数字十"),
   (js "好", js "好坏的好，优秀"),
   (js "学", js "学习，学问"),
   (js "生", js "生命，学生"),
   (js "字", js "文字，汉字"),
   (js "我", js "第一人称代词"),
   (js "你", js "第二人称代词"),
   (js "他", js "第三人称代词")]

/-- The object literal `wordsMap` of `getWords`. -/
def wordsMap : List (JsString × List JsString) :=
  [(js "人", [js "人民", js "人类", js "人们", js "人生", js "人物"]),
   (js "大", [js "大小", js "大家", js "大学", js "大人", js "大地"]),
   (js "小", [js "小学", js "小孩", js "小心", js "小鸟", js "小花"]),
   (js "上", [js "上学", js "上班", js "上面", js "上课", js "上午"]),
   (js "下", [js "下学", js "下班", js "下面", js "下课", js "下午"]),
   (js "中", [js "中国", js "中间", js "中学", js "中午", js "中心"]),
   (js "好", [js "好人", js "好事", js "好看", js "好听", js "好吃"]),
   (js "学", [js "学习", js "学校", js "学生", js "学问", js "学会"]),
   (js "生", [js "生活", js "生命", js "生日", js "生气", js "生长"]),
   (js "字", [js "汉字", js "文字", js "字母", js "字典", js "写字"])]

/-- The object literal `sentencesMap` of `getSentences`. -/
def sentencesMap : List (JsString × List JsString) :=
  [(js "人", [js "人人都有梦想。", js "这个人很善良。"]),
   (js "大", [js "大象很大。", js "他有一个大房子。"]),
   (js "小", [js "小鸟在唱歌。", js "这是一朵小花。"]),
   (js "上", [js "我们上学去。", js "书在桌子上面。"]),
   (js "下", [js "雨从天空下来。", js "请坐下来。"]),
   (js "中", [js "中国是我的祖国。", js "他在房间中间。"]),
   (js "好", [js "今天天气很好。", js "这是一个好主意。"]),
   (js "学", [js "我喜欢学习。", js "学校里有很多学生。"]),
   (js "生", [js "生活很美好。", js "今天是我的生日。"]),
   (js "字", [js "这个字很难写。", js "请写出这个字。"])]

/-! ## The table-backed getters -/

/-- `HanziAnalyzer.getWubi`: `wubiMap[char] || '暂无'`. -/
def getWubi (char : JsString) : JsVal :=
  jsOr (getMember .str wubiMap char) (.str (js "暂无"))

/-- `HanziAnalyzer.getStructure`: the label of the first entry of `structures` whose list
includes `char`, else `'其他结构'`. -/
def getStructure (char : JsString) : JsString :=
  match structures.find? (fun entry => entry.2.contains char) with
  | some entry => entry.1
  | none => js "其他结构"

/-- `HanziAnalyzer.getWuxing`: the label of the first entry of `wuxingMap` whose list
includes `char`, else the default `'土'`. -/
def getWuxing (char : JsString) : JsString :=
  match wuxingMap.find? (fun entry => entry.2.contains char) with
  | some entry => entry.1
  | none => js "土"

/-- `HanziAnalyzer.getMeaning`: `meanings[char] || '暂无释义'`. -/
def getMeaning (char : JsString) : JsVal :=
  jsOr (getMember .str meanings char) (.str (js "暂无释义"))

/-- `HanziAnalyzer.getWords`: `wordsMap[char] || ['暂无组词']`. -/
def getWords (char : JsString) : JsVal :=
  jsOr (getMember strArr wordsMap char) (strArr [js "暂无组词"])

/-- `HanziAnalyzer.getSentences`: `sentencesMap[char] || ['暂无例句']`. -/
def getSentences (char : JsString) : JsVal :=
  jsOr (getMember strArr sentencesMap char) (strArr [js "暂无例句"])

/-! ## The external linguistic library -/

/-- The part of the external library `cnchar` that the analyser calls.  Each call is a pure
function of its arguments that either returns a value or throws one (`Except.error`).
`radical` and `convert` are optional members: the analyser tests them for truthiness before
use, and `none` stands for a missing member. -/
structure Cnchar where
  /-- Models `cnchar.spell(char, ...args)`. -/
  spell : JsString → List JsString → Except JsVal JsVal
  /-- Models `cnchar.stroke(char, ...args)`. -/
  stroke : JsString → List JsString → Except JsVal JsVal
  /-- Models `cnchar.radical(char)`, when the member exists. -/
  radical : Option (JsString → Except JsVal JsVal)
  /-- Models `cnchar.convert.simpleToTrad(char)`, when `cnchar.convert` exists. -/
  convert : Option (JsString → Except JsVal JsVal)

/-- Whether a call returned rather than threw. -/
def returned {ε α : Type} : Except ε α → Bool
  | .ok _ => true
  | .error _ => false

/-- The library calls that `analyzeChar` makes for `char` all return. -/
def Cnchar.succeedsOn (cnchar : Cnchar) (char : JsString) : Bool :=
  returned (cnchar.spell char [js "tone"]) &&
  returned (cnchar.spell char [js "array", js "tone"]) &&
  returned (cnchar.stroke char []) &&
  returned (cnchar.stroke char [js "array"]) &&
  (match cnchar.radical with
   | some radical => returned (radical char)
   | none => true) &&
  (match cnchar.convert with
   | some simpleToTrad => returned (simpleToTrad char)
   | none => true)

/-! ## The analysis record and the analyser -/

/-- The object literal `result` built by `analyzeChar`; its `structure` property is the field
`structure_`, the plain name being reserved. -/
structure AnalysisRecord where
  char : JsString
  pinyin : JsVal
  pinyinArray : JsVal
  stroke : JsVal
  strokeOrder : JsVal
  radical : JsVal
  structure_ : JsString
  traditional : JsVal
  wubi : JsVal
  wuxing : JsString
  meaning : JsVal
  words : JsVal
  sentences : JsVal

/-- The console: the argument lists passed to `console.error`, oldest first.  It is the only
state outside its own locals that the analyser touches. -/
abbrev Console := List (List JsVal)

/-- The body of the `try` block of `analyzeChar`: the properties of the object literal are
evaluated in source order and the first throw aborts the evaluation. -/
def analyzeCharTry (cnchar : Cnchar) (char : JsString) : Except JsVal AnalysisRecord := do
  let pinyin ← cnchar.spell char [js "tone"]
  let pinyinArray ← cnchar.spell char [js "array", js "tone"]
  let stroke ← cnchar.stroke char []
  let strokeOrder ← cnchar.stroke char [js "array"]
  let radical ← (match cnchar.radical with
    | some radical => radical char
    | none => pure (.str (js "暂无")))
  let structure_ := getStructure char
  let traditional ← (match cnchar.convert with
    | some simpleToTrad => simpleToTrad char
    | none => pure (.str char))
  let wubi := getWubi char
  let wuxing := getWuxing char
  let meaning := getMeaning char
  let words := getWords char
  let sentences := getSentences char
  pure { char := char, pinyin := pinyin, pinyinArray := pinyinArray, stroke := stroke,
         strokeOrder := strokeOrder, radical := radical, structure_ := structure_,
         traditional := traditional, wubi := wubi, wuxing := wuxing, meaning := meaning,
         words := words, sentences := sentences }

/-- `HanziAnalyzer.analyzeChar`: `null` (`none`) unless `char` has exactly one code unit; then
the record, or `null` after logging when a library call throws. -/
def analyzeChar (cnchar : Cnchar) (char : JsString) (console : Console) :
    Option AnalysisRecord × Console :=
  if char.isEmpty || char.length != 1 then (none, console)
  else
    match analyzeCharTry cnchar char with
    | .ok result => (some result, console)
    | .error error => (none, console ++ [[.str (js "分析汉字时出错:"), error]])

/-- The range `U+4E00..U+9FFF` of the character class `[\u4e00-\u9fff]`. -/
def isIdeograph (u : CodeUnit) : Bool :=
  0x4e00 ≤ u && u ≤ 0x9fff

/-- Evaluation of `/[\u4e00-\u9fff]/.test(s)`: some code unit of `s` lies in the range. -/
def ideographTest (s : JsString) : Bool :=
  s.any isIdeograph

/-- Evaluation of `text.split('')`: one string per code unit. -/
def splitChars (text : JsString) : List JsString :=
  text.map (fun u => [u])

/-- Evaluation of `chars.map(char => this.analyzeChar(char))`, left to right, threading the
console. -/
def mapAnalyzeChar (cnchar : Cnchar) : List JsString → Console → List (Option AnalysisRecord) × Console
  | [], console => ([], console)
  | char :: rest, console =>
    let first := analyzeChar cnchar char console
    let others := mapAnalyzeChar cnchar rest first.2
    (first.1 :: others.1, others.2)

/-- `HanziAnalyzer.analyzeText`. -/
def analyzeText (cnchar : Cnchar) (text : JsString) (console : Console) :
    List AnalysisRecord × Console :=
  if text.isEmpty then ([], console)
  else
    let chars := (splitChars text).filter ideographTest
    let results := mapAnalyzeChar cnchar chars console
    (results.1.filterMap id, results.2)

/-! ## A sample library for concrete evaluation -/

/-- A library that never throws: it answers every call with a fixed shape of value and has
both optional members. -/
def sampleCnchar : Cnchar where
  spell := fun char args => .ok (if args.contains (js "array") then .arr [.str char] else .str char)
  stroke := fun _ args => .ok (if args.contains (js "array") then .arr [.num 2] else .num 2)
  radical := some (fun char => .ok (.str char))
  convert := some (fun char => .ok (.str char))

/-- A library whose `stroke` throws for the character '大' and that otherwise behaves like
`sampleCnchar`; it lacks both optional members. -/
def throwingCnchar : Cnchar where
  spell := fun char args => .ok (if args.contains (js "array") then .arr [.str char] else .str char)
  stroke := fun char args =>
    if char = js "大" then .error (.str (js "unsupported"))
    else .ok (if args.contains (js "array") then .arr [.num 2] else .num 2)
  radical := none
  convert := none

/-! ## The view: `handleAnalyze` of `App` -/

/-- The code units that `String.prototype.trim` strips: ECMAScript `WhiteSpace` (tab, vertical
tab, form feed, space, no-break space, the byte order mark, the space separators) and
`LineTerminator`. -/
def isTrimmed (u : CodeUnit) : Bool :=
  u ∈ [0x0009, 0x000A, 0x000B, 0x000C, 0x000D, 0x0020, 0x00A0, 0x1680, 0x2000, 0x2001, 0x2002,
       0x2003, 0x2004, 0x2005, 0x2006, 0x2007, 0x2008, 0x2009, 0x200A, 0x2028, 0x2029, 0x202F,
       0x205F, 0x3000, 0xFEFF]

/-- Evaluation of `s.trim()`. -/
def trim (s : JsString) : JsString :=
  ((s.dropWhile isTrimmed).reverse.dropWhile isTrimmed).reverse

/-- The three `useState` cells of `App`. -/
structure AppState where
  inputText : JsString
  analyzedChars : List AnalysisRecord
  isLoading : Bool

/-- The calls `handleAnalyze` can make: the state setters and the analysis step. -/
inductive Call where
  | setIsLoading (value : Bool)
  | analyzeText (text : JsString)
  | setAnalyzedChars (results : List AnalysisRecord)

/-- The effect of one call on the state cells; the analysis step writes none of them. -/
def Call.apply (s : AppState) : Call → AppState
  | .setIsLoading value => { s with isLoading := value }
  | .analyzeText _ => s
  | .setAnalyzedChars results => { s with analyzedChars := results }

/-- One run of a handler: the calls it made in order, the state cells once the queued updates
are applied, and the console. -/
structure HandlerRun where
  calls : List Call
  state : AppState
  console : Console

/-- `handleAnalyze` of `App`.  The handler has no `await`, so it runs to completion in one
step.  `analyzeText` catches every throw inside `analyzeChar`, so the handler's own `catch`
branch is never entered and only the `try` and `finally` branches are modelled. -/
def handleAnalyze (cnchar : Cnchar) (s : AppState) (console : Console) : HandlerRun :=
  if (trim s.inputText).isEmpty then { calls := [], state := s, console := console }
  else
    let results := analyzeText cnchar s.inputText console
    let calls := [Call.setIsLoading true, Call.analyzeText s.inputText,
                  Call.setAnalyzedChars results.1, Call.setIsLoading false]
    { calls := calls, state := calls.foldl Call.apply s, console := results.2 }

/-! ## The animation adapter -/

/-- The playback methods of a writer of the external animation library. -/
inductive WriterMethod where
  | animateCharacter
  | showOutline
  | showCharacter
  | hideCharacter
  | quiz
  deriving DecidableEq

/-- What the adapter does with the numbers it is given as sizes.  JavaScript numbers are
doubles, so the numbers themselves (`Num`) and the operations the adapter applies to them are
parameters: `text x` is the text of `x` in a template literal, `min x y` is `Math.min(x, y)`,
and `timesPointSixText x` is the text of the product `x * 0.6` in a template literal. -/
structure NumberOps (Num : Type) where
  text : Num → JsString
  min : Num → Num → Num
  timesPointSixText : Num → JsString

/-- A writer instance of the external animation library, known by what it was created with. -/
structure Writer (Num : Type) where
  char : JsString
  width : Num
  height : Num

/-- The module `hanzi-writer` once loaded: `create(target, char, options)` either throws or
returns a writer together with the markup it renders into the target. -/
structure HanziWriter (Num : Type) where
  create : JsString → Num → Num → Except JsVal (Writer Num × JsString)

/-- One mounted component instance: the markup last assigned to the `innerHTML` of the
container behind `targetRef` (`none` while `targetRef.current` is null), the writer behind
`writerRef`, the playback methods invoked so far, and the console. -/
structure Mount (Num : Type) where
  target : Option JsString
  writer : Option (Writer Num)
  played : List (Writer Num × WriterMethod)
  console : Console

/-- The template literal both fallback branches assign to `innerHTML`. -/
def fallbackMarkup {Num : Type} (ops : NumberOps Num) (char : JsString) (width height : Num) :
    JsString :=
  js "<div style=\"width: " ++ ops.text width ++ js "px; height: " ++ ops.text height ++
    js "px; display: flex; align-items: center; justify-content: center; font-size: " ++
    ops.timesPointSixText (ops.min width height) ++ js "px; color: #6b7280;\">" ++ char ++
    js "</div>"

/-- The mount effect of `SimpleHanziAnimation({ char, size })`, run to the settlement of the
dynamic import: `imported` is the outcome of `import('hanzi-writer')`, a rejection being
`Except.error`. -/
def simpleEffect {Num : Type} (ops : NumberOps Num) (imported : Except JsVal (HanziWriter Num))
    (char : JsString) (size : Num) (m : Mount Num) : Mount Num :=
  if char.isEmpty || m.target.isNone then m
  else
    let m := { m with writer := none, target := some [] }
    match imported with
    | .ok hanziWriter =>
      match hanziWriter.create char size size with
      | .ok (writer, drawn) => { m with target := some drawn, writer := some writer }
      | .error error =>
        { m with
          console := m.console ++ [[.str (js "创建汉字动画时出错:"), error]]
          target := m.target.map (fun _ => fallbackMarkup ops char size size) }
    | .error error =>
      { m with
        console := m.console ++ [[.str (js "加载 HanziWriter 失败:"), error]]
        target := m.target.map (fun _ => fallbackMarkup ops char size size) }

/-- The mount effect of `HanziAnimationWithControls({ char, width, height })`, run to the
settlement of the dynamic import. -/
def controlsEffect {Num : Type} (ops : NumberOps Num)
    (imported : Except JsVal (HanziWriter Num)) (char : JsString) (width height : Num)
    (m : Mount Num) : Mount Num :=
  if char.isEmpty || m.target.isNone then m
  else
    let m := { m with writer := none, target := some [] }
    match imported with
    | .ok hanziWriter =>
      match hanziWriter.create char width height with
      | .ok (writer, drawn) => { m with target := some drawn, writer := some writer }
      | .error error =>
        { m with
          console := m.console ++ [[.str (js "创建汉字动画时出错:"), error]]
          target := m.target.map (fun _ => fallbackMarkup ops char width height) }
    | .error error =>
      { m with
        console := m.console ++ [[.str (js "加载 HanziWriter 失败:"), error]]
        target := m.target.map (fun _ => fallbackMarkup ops char width height) }

/-- The five playback buttons of `HanziAnimationWithControls`. -/
inductive Control where
  | startAnimation
  | showOutlineOnly
  | showCompleteCharacter
  | hideCharacter
  | startQuiz
  deriving DecidableEq

/-- The writer method each button handler calls. -/
def Control.method : Control → WriterMethod
  | .startAnimation => .animateCharacter
  | .showOutlineOnly => .showOutline
  | .showCompleteCharacter => .showCharacter
  | .hideCharacter => .hideCharacter
  | .startQuiz => .quiz

/-- A button handler: `if (writerRef.current) writerRef.current.method()`. -/
def Control.press {Num : Type} (control : Control) (m : Mount Num) : Mount Num :=
  match m.writer with
  | some writer => { m with played := m.played ++ [(writer, control.method)] }
  | none => m

/-- One HTML element with an inline style and a text content. -/
structure Element where
  tag : JsString
  style : List (JsString × JsString)
  text : JsString

/-- The markup of an element: the style declarations are written `name: value;` and
separated by one space. -/
def Element.markup (e : Element) : JsString :=
  js "<" ++ e.tag ++ js " style=\"" ++
    (js " ").intercalate (e.style.map (fun d => d.1 ++ js ": " ++ d.2 ++ js ";")) ++
    js "\">" ++ e.text ++ js "</" ++ e.tag ++ js ">"

/-- The static glyph of the adapter's fallback: a `div` of the requested width and height in
pixels that centres the literal character, the font size taken from the smaller side. -/
def staticGlyph {Num : Type} (ops : NumberOps Num) (char : JsString) (width height : Num) :
    Element where
  tag := js "div"
  style := [(js "width", ops.text width ++ js "px"),
            (js "height", ops.text height ++ js "px"),
            (js "display", js "flex"),
            (js "align-items", js "center"),
            (js "justify-content", js "center"),
            (js "font-size", ops.timesPointSixText (ops.min width height) ++ js "px"),
            (js "color", js "#6b7280")]
  text := char

/-- A size of `5 * fifth` pixels, for `fifth` up to 2000: the whole multiples of five up to
ten thousand, which include every size `App` passes (80 and 180) and both defaults (100 and
200). -/
structure FiveStepSize where
  fifth : Nat
  small : fifth ≤ 2000

/-- The number operations on `FiveStepSize`.  A whole number this small is printed as its
decimal numeral, and its double-precision product with `0.6` is exactly the whole number
`3 * fifth`, printed likewise. -/
def fiveStepOps : NumberOps FiveStepSize where
  text := fun x => js (toString (5 * x.fifth))
  min := fun x y => if x.fifth ≤ y.fifth then x else y
  timesPointSixText := fun x => js (toString (3 * x.fifth))

/-- A loaded animation library that rejects every character. -/
def rejectingHanziWriter {Num : Type} : HanziWriter Num where
  create := fun _ _ _ => .error (.str (js "unsupported character"))

/-- A freshly mounted component: empty container, no writer, nothing played or logged. -/
def freshMount {Num : Type} : Mount Num where
  target := some []
  writer := none
  played := []
  console := []

/-- Whether a call is the analysis step. -/
def Call.isAnalyzeText : Call → Bool
  | .analyzeText _ => true
  | _ => false

/-- A state whose displayed list holds the record of '人' from an earlier analysis and whose
input box now holds the Latin text "abc". -/
def staleState : AppState where
  inputText := js "abc"
  analyzedChars := (analyzeText sampleCnchar (js "人") []).1
  isLoading := false

/-- A state whose input box holds only whitespace, with the record of '人' displayed. -/
def blankState : AppState where
  inputText := js " \t\n"
  analyzedChars := (analyzeText sampleCnchar (js "人") []).1
  isLoading := false

/-- Whether the settled import leaves the adapter without a writer for `char`: the import was
rejected, or `create` threw. -/
def loadFails {Num : Type} (imported : Except JsVal (HanziWriter Num)) (char : JsString)
    (width height : Num) : Bool :=
  match imported with
  | .error _ => true
  | .ok hanziWriter => !returned (hanziWriter.create char width height)

/-- The keys of an object literal. -/
def keys {α : Type} (table : List (JsString × α)) : List JsString :=
  table.map Prod.fst

/-- The record part of `analyzeChar`, which does not depend on the console. -/
def analyzeCharResult (cnchar : Cnchar) (char : JsString) : Option AnalysisRecord :=
  if char.length = 1 then
    match analyzeCharTry cnchar char with
    | .ok result => some result
    | .error _ => none
  else none

/-! ## Auxiliary facts about the analyser -/

theorem analyzeChar_fst (cnchar : Cnchar) (char : JsString) (console : Console) :
    (analyzeChar cnchar char console).1 = analyzeCharResult cnchar char := by
  unfold analyzeChar analyzeCharResult
  by_cases hlen : char.length = 1
  · have hne : char.isEmpty = false := by
      cases char with
      | nil => simp at hlen
      | cons u rest => rfl
    simp only [hlen, hne, bne_self_eq_false, Bool.or_self, Bool.false_eq_true, if_false, if_true]
    cases analyzeCharTry cnchar char <;> rfl
  · simp [hlen]

theorem analyzeCharTry_of_succeedsOn (cnchar : Cnchar) (char : JsString)
    (h : cnchar.succeedsOn char = true) :
    ∃ r, analyzeCharTry cnchar char = .ok r ∧ r.char = char ∧ r.structure_ = getStructure char ∧
      r.wubi = getWubi char ∧ r.wuxing = getWuxing char ∧ r.meaning = getMeaning char ∧
      r.words = getWords char ∧ r.sentences = getSentences char := by
  unfold Cnchar.succeedsOn at h
  unfold analyzeCharTry
  cases h1 : cnchar.spell char [js "tone"] <;>
  cases h2 : cnchar.spell char [js "array", js "tone"] <;>
  cases h3 : cnchar.stroke char [] <;>
  cases h4 : cnchar.stroke char [js "array"] <;>
  simp only [h1, h2, h3, h4, returned, Bool.and_true, Bool.true_and, Bool.and_false,
    Bool.false_and, Bool.false_eq_true, Bool.and_eq_true] at h
  obtain ⟨h5, h6⟩ := h
  cases hr : cnchar.radical with
  | none =>
    cases hc : cnchar.convert with
    | none => exact ⟨_, rfl, rfl, rfl, rfl, rfl, rfl, rfl, rfl⟩
    | some simpleToTrad =>
      rw [hc] at h6
      cases h8 : simpleToTrad char with
      | error e => simp [h8, returned] at h6
      | ok v => exact ⟨_, by simp [bind, Except.bind, pure, Except.pure, h8]; rfl, rfl, rfl, rfl, rfl, rfl, rfl, rfl⟩
  | some radical =>
    rw [hr] at h5
    cases h7 : radical char with
    | error e => simp [h7, returned] at h5
    | ok w =>
      cases hc : cnchar.convert with
      | none => exact ⟨_, by simp [bind, Except.bind, pure, Except.pure, h7]; rfl, rfl, rfl, rfl, rfl, rfl, rfl, rfl⟩
      | some simpleToTrad =>
        rw [hc] at h6
        cases h8 : simpleToTrad char with
        | error e => simp [h8, returned] at h6
        | ok v => exact ⟨_, by simp [bind, Except.bind, pure, Except.pure, h7, h8]; rfl, rfl, rfl, rfl, rfl, rfl, rfl, rfl⟩

theorem analyzeCharTry_of_not_succeedsOn (cnchar : Cnchar) (char : JsString)
    (h : cnchar.succeedsOn char = false) : ∃ e, analyzeCharTry cnchar char = .error e := by
  unfold Cnchar.succeedsOn at h
  unfold analyzeCharTry
  cases h1 : cnchar.spell char [js "tone"] with
  | error e => exact ⟨e, rfl⟩
  | ok v1 =>
  cases h2 : cnchar.spell char [js "array", js "tone"] with
  | error e => exact ⟨e, rfl⟩
  | ok v2 =>
  cases h3 : cnchar.stroke char [] with
  | error e => exact ⟨e, rfl⟩
  | ok v3 =>
  cases h4 : cnchar.stroke char [js "array"] with
  | error e => exact ⟨e, rfl⟩
  | ok v4 =>
  simp only [h1, h2, h3, h4, returned, Bool.true_and] at h
  cases hr : cnchar.radical with
  | none =>
    cases hc : cnchar.convert with
    | none => simp [hr, hc] at h
    | some simpleToTrad =>
      cases h8 : simpleToTrad char with
      | error e => exact ⟨e, by simp [bind, Except.bind, pure, Except.pure, h8]⟩
      | ok v => simp [hr, hc, h8, returned] at h
  | some radical =>
    cases h7 : radical char with
    | error e => exact ⟨e, by simp [bind, Except.bind, h7]⟩
    | ok w =>
      cases hc : cnchar.convert with
      | none => simp [hr, hc, h7, returned] at h
      | some simpleToTrad =>
        cases h8 : simpleToTrad char with
        | error e => exact ⟨e, by simp [bind, Except.bind, pure, Except.pure, h7, h8]⟩
        | ok v => simp [hr, hc, h7, h8, returned] at h

theorem analyzeCharResult_of_succeedsOn (cnchar : Cnchar) (char : JsString)
    (hlen : char.length = 1) (h : cnchar.succeedsOn char = true) :
    ∃ r, analyzeCharResult cnchar char = some r ∧ r.char = char ∧
      r.structure_ = getStructure char ∧ r.wubi = getWubi char ∧ r.wuxing = getWuxing char ∧
      r.meaning = getMeaning char ∧ r.words = getWords char ∧
      r.sentences = getSentences char := by
  obtain ⟨r, hr, hrest⟩ := analyzeCharTry_of_succeedsOn cnchar char h
  exact ⟨r, by simp [analyzeCharResult, hlen, hr], hrest⟩

theorem analyzeCharResult_eq_none_iff (cnchar : Cnchar) (char : JsString) :
    analyzeCharResult cnchar char = none ↔
      (char.length ≠ 1 ∨ cnchar.succeedsOn char = false) := by
  by_cases hlen : char.length = 1
  · cases hs : cnchar.succeedsOn char with
    | true =>
      obtain ⟨r, hr, -⟩ := analyzeCharResult_of_succeedsOn cnchar char hlen hs
      simp [hr, hlen]
    | false =>
      obtain ⟨e, he⟩ := analyzeCharTry_of_not_succeedsOn cnchar char hs
      simp [analyzeCharResult, hlen, he]
  · simp [analyzeCharResult, hlen]

theorem mapAnalyzeChar_fst (cnchar : Cnchar) (chars : List JsString) (console : Console) :
    (mapAnalyzeChar cnchar chars console).1 = chars.map (analyzeCharResult cnchar) := by
  induction chars generalizing console with
  | nil => rfl
  | cons char rest ih => simp [mapAnalyzeChar, ih, analyzeChar_fst]

theorem filter_splitChars (text : JsString) :
    (splitChars text).filter ideographTest = (text.filter isIdeograph).map (fun u => [u]) := by
  induction text with
  | nil => rfl
  | cons u rest ih =>
    unfold splitChars at ih ⊢
    by_cases hu : isIdeograph u = true
    · simp [List.filter_cons, ideographTest, hu, ih]
    · simp [List.filter_cons, ideographTest, hu, ih]

theorem analyzeText_fst (cnchar : Cnchar) (text : JsString) (console : Console) :
    (analyzeText cnchar text console).1 =
      ((text.filter isIdeograph).map (fun u => [u])).filterMap (analyzeCharResult cnchar) := by
  unfold analyzeText
  cases text with
  | nil => rfl
  | cons u rest =>
    simp only [List.isEmpty_cons, Bool.false_eq_true, if_false]
    rw [mapAnalyzeChar_fst, filter_splitChars, List.filterMap_map]
    simp [List.filterMap_map, Function.comp_def]

theorem filterMap_analyzeCharResult (cnchar : Cnchar) (units : List CodeUnit)
    (hlib : ∀ u ∈ units, cnchar.succeedsOn [u] = true) :
    ((units.map (fun u => [u])).filterMap (analyzeCharResult cnchar)).map some =
        units.map (fun u => analyzeCharResult cnchar [u]) ∧
      ((units.map (fun u => [u])).filterMap (analyzeCharResult cnchar)).map (fun r => r.char) =
        units.map (fun u => [u]) := by
  induction units with
  | nil => exact ⟨rfl, rfl⟩
  | cons u rest ih =>
    obtain ⟨r, hr, hchar, -⟩ :=
      analyzeCharResult_of_succeedsOn cnchar [u] rfl (hlib u (List.mem_cons_self u rest))
    have ih2 := ih (fun v hv => hlib v (List.mem_cons_of_mem u hv))
    simp only [List.map_cons, List.filterMap_cons, hr, hchar, ih2.1, ih2.2, and_self]

theorem count_singletons (units : List CodeUnit) (u : CodeUnit) :
    (units.map (fun v => [v])).count [u] = units.count u := by
  induction units with
  | nil => rfl
  | cons v rest ih =>
    by_cases hv : v = u
    · subst hv
      simp [ih]
    · have hne : ([v] == [u]) = false := by simp [hv]
      have hne2 : (v == u) = false := by simp [hv]
      simp only [List.map_cons, List.count_cons, ih, hne, hne2]

theorem analyzeText_of_filter_nil (cnchar : Cnchar) (text : JsString) (console : Console)
    (hfilter : text.filter isIdeograph = []) :
    analyzeText cnchar text console = ([], console) := by
  unfold analyzeText
  cases text with
  | nil => rfl
  | cons u rest =>
    simp only [List.isEmpty_cons, Bool.false_eq_true, if_false]
    rw [filter_splitChars, hfilter]
    rfl

/-! ## Properties of `analyzeText` -/

/-- C1: on a text of N code units that are all ideographs (`U+4E00..U+9FFF`), with library
calls that return for each of them, `analyzeText` returns exactly N records in input order:
the i-th record is the one `analyzeChar` returns for the i-th character, and its `char`
field is that character. -/
theorem analyzeText_all_ideographs (cnchar : Cnchar) (text : JsString) (console : Console)
    (hideo : ∀ u ∈ text, isIdeograph u = true)
    (hlib : ∀ u ∈ text, cnchar.succeedsOn [u] = true) :
    (analyzeText cnchar text console).1.length = text.length ∧
      (analyzeText cnchar text console).1.map (fun r => r.char) = text.map (fun u => [u]) ∧
      (analyzeText cnchar text console).1.map some =
        text.map (fun u => (analyzeChar cnchar [u] console).1) := by
  have hfilter : text.filter isIdeograph = text := List.filter_eq_self.mpr hideo
  have h := filterMap_analyzeCharResult cnchar text hlib
  rw [analyzeText_fst, hfilter]
  refine ⟨?_, h.2, ?_⟩
  · have hlen := congrArg List.length h.2
    simpa using hlen
  · rw [h.1]
    simp only [analyzeChar_fst]

/-- C1, evaluated: "人大" yields the record for '人' and then the record for '大'. -/
theorem analyzeText_all_ideographs_witness :
    (analyzeText sampleCnchar (js "人大") []).1.length = (js "人大").length ∧
      (analyzeText sampleCnchar (js "人大") []).1.map (fun r => r.char) = [js "人", js "大"] ∧
      (analyzeText sampleCnchar (js "人大") []).1.map some =
        [(analyzeChar sampleCnchar (js "人") []).1, (analyzeChar sampleCnchar (js "大") []).1] :=
  analyzeText_all_ideographs sampleCnchar (js "人大") [] (by decide) (by decide)

/-- C2: on a text without any ideograph code unit, the empty text included, `analyzeText`
returns the empty sequence (and logs nothing), whatever the library does. -/
theorem analyzeText_no_ideograph (cnchar : Cnchar) (text : JsString) (console : Console)
    (hnone : ∀ u ∈ text, isIdeograph u = false) :
    analyzeText cnchar text console = ([], console) := by
  apply analyzeText_of_filter_nil
  exact List.filter_eq_nil_iff.mpr (fun v hv => by simp [hnone v hv])

/-- C2, evaluated on Latin letters, digits, punctuation and whitespace, and on the empty
text. -/
theorem analyzeText_no_ideograph_witness :
    analyzeText throwingCnchar (js "Hanzi 123, ok!\n") [] = ([], []) ∧
      analyzeText throwingCnchar (js "") [] = ([], []) :=
  ⟨analyzeText_no_ideograph throwingCnchar (js "Hanzi 123, ok!\n") [] (by decide),
   analyzeText_no_ideograph throwingCnchar (js "") [] (by decide)⟩

/-- C3: for every text, with library calls that return for each of its ideographs, the
`char` fields of the records of `analyzeText` are the code units of the text filtered to
`U+4E00..U+9FFF`, in original order and without deduplication: a code unit is the `char` of
as many records as it has occurrences in the text when it is an ideograph, and of none
otherwise. -/
theorem analyzeText_chars (cnchar : Cnchar) (text : JsString) (console : Console)
    (hlib : ∀ u ∈ text, isIdeograph u = true → cnchar.succeedsOn [u] = true) :
    (analyzeText cnchar text console).1.map (fun r => r.char) =
        (text.filter isIdeograph).map (fun u => [u]) ∧
      ∀ u, ((analyzeText cnchar text console).1.map (fun r => r.char)).count [u] =
        if isIdeograph u = true then text.count u else 0 := by
  have hlib2 : ∀ u ∈ text.filter isIdeograph, cnchar.succeedsOn [u] = true := by
    intro u hu
    rw [List.mem_filter] at hu
    exact hlib u hu.1 hu.2
  have h := (filterMap_analyzeCharResult cnchar (text.filter isIdeograph) hlib2).2
  rw [analyzeText_fst, h]
  refine ⟨rfl, fun u => ?_⟩
  rw [count_singletons]
  by_cases hu : isIdeograph u = true
  · rw [List.count_filter hu, if_pos hu]
  · rw [if_neg hu]
    exact List.count_eq_zero.mpr (fun hmem => hu (List.mem_filter.mp hmem).2)

/-- C3, evaluated on a mixed text with a repeated ideograph. -/
theorem analyzeText_chars_witness :
    (analyzeText sampleCnchar (js "人a人,大 人") []).1.map (fun r => r.char) =
        [js "人", js "人", js "大", js "人"] ∧
      ((analyzeText sampleCnchar (js "人a人,大 人") []).1.map (fun r => r.char)).count (js "人")
        = 3 :=
  ⟨(analyzeText_chars sampleCnchar (js "人a人,大 人") [] (by decide)).1,
   (analyzeText_chars sampleCnchar (js "人a人,大 人") [] (by decide)).2 0x4EBA⟩

/-! ## Properties of `analyzeChar` and of the getters -/

theorem prototype_names_long : ∀ name ∈ objectPrototypeNames, name.length ≠ 1 := by
  decide

theorem lookup_of_not_mem_keys {α : Type} (table : List (JsString × α)) (key : JsString)
    (h : key ∉ keys table) : table.lookup key = none := by
  induction table with
  | nil => rfl
  | cons entry rest ih =>
    obtain ⟨k, v⟩ := entry
    simp only [keys, List.map_cons, List.mem_cons, not_or] at h
    have hk : (key == k) = false := by simpa using h.1
    simp only [List.lookup, hk]
    exact ih h.2

theorem getMember_of_not_mem_keys {α : Type} (toVal : α → JsVal) (table : List (JsString × α))
    (key : JsString) (hlen : key.length = 1) (h : key ∉ keys table) :
    getMember toVal table key = none := by
  have hproto : key ∉ objectPrototypeNames := fun hmem => prototype_names_long key hmem hlen
  simp [getMember, lookup_of_not_mem_keys table key h, hproto]

theorem find?_lists_none (table : List (JsString × List JsString)) (char : JsString)
    (h : ∀ entry ∈ table, char ∉ entry.2) :
    table.find? (fun entry => entry.2.contains char) = none := by
  rw [List.find?_eq_none]
  intro entry hentry
  simpa using h entry hentry

theorem analyzeChar_null_iff_aux (cnchar : Cnchar) (char : JsString) (console : Console) :
    (analyzeChar cnchar char console).1 = none ↔
      (char.length ≠ 1 ∨ cnchar.succeedsOn char = false) := by
  rw [analyzeChar_fst]
  exact analyzeCharResult_eq_none_iff cnchar char

/-- C4 (as the code has it): `analyzeChar` returns `null` exactly when its input is not
exactly one code unit long or one of the library calls throws.  The Unicode range is not
consulted. -/
theorem analyzeChar_null_iff (cnchar : Cnchar) (char : JsString) (console : Console) :
    (analyzeChar cnchar char console).1 = none ↔
      (char.length ≠ 1 ∨ cnchar.succeedsOn char = false) := by
  rw [analyzeChar_fst]
  exact analyzeCharResult_eq_none_iff cnchar char

/-- C4, refuted as stated: 'a' is a single character outside `U+4E00..U+9FFF`, and
`analyzeChar` returns a record for it. -/
theorem analyzeChar_latin_letter_record :
    (js "a").length = 1 ∧ ideographTest (js "a") = false ∧
      (analyzeChar sampleCnchar (js "a") []).1.map (fun r => r.char) = some (js "a") := by
  decide

/-- C5: for a single character that is absent from a lookup table, the getter of that table
returns the table's fixed placeholder. -/
theorem getters_placeholder (char : JsString) (hlen : char.length = 1) :
    (char ∉ keys wubiMap → getWubi char = .str (js "暂无")) ∧
      ((∀ entry ∈ wuxingMap, char ∉ entry.2) → getWuxing char = js "土") ∧
      (char ∉ keys meanings → getMeaning char = .str (js "暂无释义")) ∧
      (char ∉ keys wordsMap → getWords char = .arr [.str (js "暂无组词")]) ∧
      (char ∉ keys sentencesMap → getSentences char = .arr [.str (js "暂无例句")]) ∧
      ((∀ entry ∈ structures, char ∉ entry.2) → getStructure char = js "其他结构") := by
  refine ⟨fun h => ?_, fun h => ?_, fun h => ?_, fun h => ?_, fun h => ?_, fun h => ?_⟩
  · simp [getWubi, getMember_of_not_mem_keys _ _ _ hlen h, jsOr]
  · unfold getWuxing
    rw [find?_lists_none _ _ h]
  · simp [getMeaning, getMember_of_not_mem_keys _ _ _ hlen h, jsOr]
  · simp [getWords, getMember_of_not_mem_keys _ _ _ hlen h, jsOr, strArr]
  · simp [getSentences, getMember_of_not_mem_keys _ _ _ hlen h, jsOr, strArr]
  · unfold getStructure
    rw [find?_lists_none _ _ h]

/-- C5, evaluated on '龙', which no table holds. -/
theorem getters_placeholder_witness :
    getWubi (js "龙") = .str (js "暂无") ∧ getWuxing (js "龙") = js "土" ∧
      getMeaning (js "龙") = .str (js "暂无释义") ∧
      getWords (js "龙") = .arr [.str (js "暂无组词")] ∧
      getSentences (js "龙") = .arr [.str (js "暂无例句")] ∧
      getStructure (js "龙") = js "其他结构" :=
  have h := getters_placeholder (js "龙") (by decide)
  ⟨h.1 (by decide), h.2.1 (by decide), h.2.2.1 (by decide), h.2.2.2.1 (by decide),
   h.2.2.2.2.1 (by decide), h.2.2.2.2.2 (by decide)⟩

/-- C6: for every key of the wubi, gloss, words and sentences tables the getter returns
exactly the tabled value; the record `analyzeChar` returns for a single character (it
returns one whenever the library calls return) carries the getters' values in its `wubi`,
`meaning`, `words` and `sentences` fields; and the record for '人' has the meaning
"人类，人民" and a words list that contains "人民". -/
theorem tabled_values :
    (∀ entry ∈ wubiMap, getWubi entry.1 = .str entry.2) ∧
      (∀ entry ∈ meanings, getMeaning entry.1 = .str entry.2) ∧
      (∀ entry ∈ wordsMap, getWords entry.1 = strArr entry.2) ∧
      (∀ entry ∈ sentencesMap, getSentences entry.1 = strArr entry.2) ∧
      (∀ (cnchar : Cnchar) (char : JsString) (console : Console), char.length = 1 →
        cnchar.succeedsOn char = true →
        ∃ r, analyzeChar cnchar char console = (some r, console) ∧ r.wubi = getWubi char ∧
          r.meaning = getMeaning char ∧ r.words = getWords char ∧
          r.sentences = getSentences char) ∧
      (∀ (cnchar : Cnchar) (console : Console), cnchar.succeedsOn (js "人") = true →
        ∃ r words, analyzeChar cnchar (js "人") console = (some r, console) ∧
          r.meaning = .str (js "人类，人民") ∧ r.words = strArr words ∧ js "人民" ∈ words) := by
  have hrecord : ∀ (cnchar : Cnchar) (char : JsString) (console : Console), char.length = 1 →
      cnchar.succeedsOn char = true →
      ∃ r, analyzeChar cnchar char console = (some r, console) ∧ r.wubi = getWubi char ∧
        r.meaning = getMeaning char ∧ r.words = getWords char ∧
        r.sentences = getSentences char := by
    intro cnchar char console hlen hlib
    obtain ⟨r, hr, -, -, hwubi, -, hmeaning, hwords, hsentences⟩ :=
      analyzeCharTry_of_succeedsOn cnchar char hlib
    refine ⟨r, ?_, hwubi, hmeaning, hwords, hsentences⟩
    have hne : char.isEmpty = false := by
      cases char with
      | nil => simp at hlen
      | cons u rest => rfl
    simp [analyzeChar, hlen, hne, hr]
  refine ⟨?_, ?_, ?_, ?_, hrecord, ?_⟩
  · simp only [wubiMap, List.forall_mem_cons]
    repeat' apply And.intro
    all_goals first | rfl | (intro entry h; cases h)
  · simp only [meanings, List.forall_mem_cons]
    repeat' apply And.intro
    all_goals first | rfl | (intro entry h; cases h)
  · simp only [wordsMap, List.forall_mem_cons]
    repeat' apply And.intro
    all_goals first | rfl | (intro entry h; cases h)
  · simp only [sentencesMap, List.forall_mem_cons]
    repeat' apply And.intro
    all_goals first | rfl | (intro entry h; cases h)
  · intro cnchar console hlib
    obtain ⟨r, hr, -, hmeaning, hwords, -⟩ := hrecord cnchar (js "人") console (by decide) hlib
    exact ⟨r, [js "人民", js "人类", js "人们", js "人生", js "人物"], hr, hmeaning, hwords,
      by decide⟩

/-- C6, evaluated: the record of '人' under the sample library. -/
theorem tabled_values_witness :
    ∃ r words, analyzeChar sampleCnchar (js "人") [] = (some r, []) ∧
      r.meaning = .str (js "人类，人民") ∧ r.words = strArr words ∧ js "人民" ∈ words :=
  tabled_values.2.2.2.2.2 sampleCnchar [] (by decide)

theorem analyzeChar_of_succeedsOn (cnchar : Cnchar) (char : JsString) (console : Console)
    (hlen : char.length = 1) (h : cnchar.succeedsOn char = true) :
    ∃ r, analyzeChar cnchar char console = (some r, console) ∧ r.char = char ∧
      r.structure_ = getStructure char ∧ r.wubi = getWubi char ∧ r.wuxing = getWuxing char ∧
      r.meaning = getMeaning char ∧ r.words = getWords char ∧
      r.sentences = getSentences char := by
  obtain ⟨r, hr, hrest⟩ := analyzeCharTry_of_succeedsOn cnchar char h
  have hne : char.isEmpty = false := by
    cases char with
    | nil => simp at hlen
    | cons u rest => rfl
  exact ⟨r, by simp [analyzeChar, hlen, hne, hr], hrest⟩

theorem analyzeChar_record_fields (cnchar : Cnchar) (char : JsString) (console : Console)
    (r : AnalysisRecord) (h : (analyzeChar cnchar char console).1 = some r) :
    r.char = char ∧ r.structure_ = getStructure char ∧ r.wubi = getWubi char ∧
      r.wuxing = getWuxing char ∧ r.meaning = getMeaning char ∧ r.words = getWords char ∧
      r.sentences = getSentences char := by
  have hsome : ¬ ((analyzeChar cnchar char console).1 = none) := by simp [h]
  rw [analyzeChar_null_iff_aux] at hsome
  have hlen : char.length = 1 := by
    by_contra hne
    exact hsome (Or.inl hne)
  have hlib : cnchar.succeedsOn char = true := by
    cases hs : cnchar.succeedsOn char with
    | true => rfl
    | false => exact absurd (Or.inr hs) hsome
  obtain ⟨r2, hr2, hfields⟩ := analyzeChar_of_succeedsOn cnchar char console hlen hlib
  rw [hr2] at h
  have heq : r2 = r := Option.some.inj h
  rw [← heq]
  exact hfields

/-- C7 (as the code has it): `analyzeChar` returns a record for '人' whenever the library calls
return, and every record it returns for '人' has the tabled wubi "WWWW", structure
独体结构, gloss, words and sentences, and the wuxing '土'.  '人' is a key of the wubi, gloss,
words and sentences tables and a member of the 独体结构 list, so those five attributes are
tabled values; it is in none of the five wuxing lists, so its wuxing '土' is the fallback
default. -/
theorem ren_tables :
    (∀ (cnchar : Cnchar) (console : Console), cnchar.succeedsOn (js "人") = true →
        ∃ r, analyzeChar cnchar (js "人") console = (some r, console)) ∧
      (∀ (cnchar : Cnchar) (console : Console) (r : AnalysisRecord),
        (analyzeChar cnchar (js "人") console).1 = some r →
        r.char = js "人" ∧ r.wubi = .str (js "WWWW") ∧ r.structure_ = js "独体结构" ∧
          r.meaning = .str (js "人类，人民") ∧
          r.words = strArr [js "人民", js "人类", js "人们", js "人生", js "人物"] ∧
          r.sentences = strArr [js "人人都有梦想。", js "这个人很善良。"] ∧
          r.wuxing = js "土") ∧
      js "人" ∈ keys wubiMap ∧ getWubi (js "人") = .str (js "WWWW") ∧
      (js "独体结构", [js "人", js "大", js "小", js "上", js "下", js "中", js "一", js "二",
        js "三", js "十"]) ∈ structures ∧ getStructure (js "人") = js "独体结构" ∧
      js "人" ∈ keys meanings ∧ getMeaning (js "人") = .str (js "人类，人民") ∧
      js "人" ∈ keys wordsMap ∧
      getWords (js "人") = strArr [js "人民", js "人类", js "人们", js "人生", js "人物"] ∧
      js "人" ∈ keys sentencesMap ∧
      getSentences (js "人") = strArr [js "人人都有梦想。", js "这个人很善良。"] ∧
      (∀ entry ∈ wuxingMap, js "人" ∉ entry.2) ∧
      wuxingMap.find? (fun entry => entry.2.contains (js "人")) = none ∧
      getWuxing (js "人") = js "土" := by
  have hstructure : getStructure (js "人") = js "独体结构" := by decide
  have hwuxing : getWuxing (js "人") = js "土" := by decide
  refine ⟨?_, ?_, by decide, rfl, by decide, hstructure, by decide, rfl, by decide, rfl,
    by decide, rfl, by decide, by decide, hwuxing⟩
  · intro cnchar console hlib
    obtain ⟨r, hr, -⟩ := analyzeChar_of_succeedsOn cnchar (js "人") console (by decide) hlib
    exact ⟨r, hr⟩
  · intro cnchar console r hr
    obtain ⟨hchar, hs, hwubi, hwx, hmeaning, hwords, hsentences⟩ :=
      analyzeChar_record_fields cnchar (js "人") console r hr
    refine ⟨hchar, ?_, ?_, ?_, ?_, ?_, ?_⟩
    · rw [hwubi]; rfl
    · rw [hs]; exact hstructure
    · rw [hmeaning]; rfl
    · rw [hwords]; rfl
    · rw [hsentences]; rfl
    · rw [hwx]; exact hwuxing

/-- C7, evaluated: under the sample library `analyzeChar` returns a record for '人', with the
five tabled attributes and the default wuxing '土'. -/
theorem ren_tables_witness :
    ∃ r, analyzeChar sampleCnchar (js "人") [] = (some r, []) ∧ r.char = js "人" ∧
      r.wubi = .str (js "WWWW") ∧ r.structure_ = js "独体结构" ∧
      r.meaning = .str (js "人类，人民") ∧
      r.words = strArr [js "人民", js "人类", js "人们", js "人生", js "人物"] ∧
      r.sentences = strArr [js "人人都有梦想。", js "这个人很善良。"] ∧
      r.wuxing = js "土" ∧
      wuxingMap.find? (fun entry => entry.2.contains (js "人")) = none := by
  obtain ⟨r, hr⟩ := ren_tables.1 sampleCnchar [] (by decide)
  have hfields := ren_tables.2.1 sampleCnchar [] r (by rw [hr])
  exact ⟨r, hr, hfields.1, hfields.2.1, hfields.2.2.1, hfields.2.2.2.1, hfields.2.2.2.2.1,
    hfields.2.2.2.2.2.1, hfields.2.2.2.2.2.2, by decide⟩

/-- C7, refuted as stated: '人' is not present in every lookup table, because no list of the
wuxing table contains it. -/
theorem ren_not_in_every_table :
    ¬ (js "人" ∈ keys wubiMap ∧ (∃ entry ∈ wuxingMap, js "人" ∈ entry.2) ∧
        (∃ entry ∈ structures, js "人" ∈ entry.2) ∧ js "人" ∈ keys meanings ∧
        js "人" ∈ keys wordsMap ∧ js "人" ∈ keys sentencesMap) := by
  decide

/-! ## Determinism -/

/-- C8: the record `analyzeChar` returns for a character and the sequence `analyzeText`
returns for a text do not depend on the console, the only state the analyser writes; hence a
second call made after a first one, or after any other analysis call, returns the identical
result. -/
theorem analysis_deterministic (cnchar : Cnchar) (char text other : JsString)
    (console console2 : Console) :
    (analyzeChar cnchar char console).1 = (analyzeChar cnchar char console2).1 ∧
      (analyzeText cnchar text console).1 = (analyzeText cnchar text console2).1 ∧
      (analyzeChar cnchar char (analyzeChar cnchar char console).2).1 =
        (analyzeChar cnchar char console).1 ∧
      (analyzeText cnchar text (analyzeText cnchar text console).2).1 =
        (analyzeText cnchar text console).1 ∧
      (analyzeChar cnchar char (analyzeText cnchar other console).2).1 =
        (analyzeChar cnchar char console).1 ∧
      (analyzeText cnchar text (analyzeChar cnchar other console).2).1 =
        (analyzeText cnchar text console).1 := by
  simp only [analyzeChar_fst, analyzeText_fst, and_self]

/-! ## The submit handler -/

theorem trim_isEmpty (s : JsString) : (trim s).isEmpty = s.all isTrimmed := by
  unfold trim
  by_cases hall : ∀ u ∈ s, isTrimmed u = true
  · have hdrop : s.dropWhile isTrimmed = [] := List.dropWhile_eq_nil_iff.mpr hall
    rw [hdrop, List.all_eq_true.mpr hall]
    rfl
  · have hnot : s.all isTrimmed = false := by
      rw [Bool.eq_false_iff]
      intro h
      exact hall (List.all_eq_true.mp h)
    rw [hnot, Bool.eq_false_iff]
    intro hempty
    rw [List.isEmpty_iff, List.reverse_eq_nil_iff, List.dropWhile_eq_nil_iff] at hempty
    have hdrop : s.dropWhile isTrimmed ≠ [] := fun h => hall (List.dropWhile_eq_nil_iff.mp h)
    obtain ⟨u, rest, hcons⟩ := List.exists_cons_of_ne_nil hdrop
    have hhead : isTrimmed u = false := by
      have h := List.head_dropWhile_not isTrimmed s hdrop
      simpa [hcons] using h
    have hu := hempty u (by simp [hcons])
    rw [hhead] at hu
    exact Bool.false_ne_true hu

/-- C9 (as the code has it): on an input that is empty or whitespace-only, `handleAnalyze` makes
no call at all, so the analysis step is not invoked and the state and the console are
unchanged; on an input with a non-whitespace character but no ideograph, it does invoke the
analysis step and replaces the displayed list by the empty list. -/
theorem handleAnalyze_without_ideograph (cnchar : Cnchar) (s : AppState) (console : Console) :
    ((∀ u ∈ s.inputText, isTrimmed u = true) →
        handleAnalyze cnchar s console = { calls := [], state := s, console := console }) ∧
      ((∃ u ∈ s.inputText, isTrimmed u = false) → (∀ u ∈ s.inputText, isIdeograph u = false) →
        (handleAnalyze cnchar s console).calls.any Call.isAnalyzeText = true ∧
          (handleAnalyze cnchar s console).state =
            { inputText := s.inputText, analyzedChars := [], isLoading := false } ∧
          (handleAnalyze cnchar s console).console = console) := by
  constructor
  · intro hblank
    have h : (trim s.inputText).isEmpty = true := by
      rw [trim_isEmpty]
      exact List.all_eq_true.mpr hblank
    simp [handleAnalyze, h]
  · intro hsome hnone
    have h : (trim s.inputText).isEmpty = false := by
      rw [trim_isEmpty, Bool.eq_false_iff]
      intro hall
      obtain ⟨u, hu, hfalse⟩ := hsome
      rw [List.all_eq_true.mp hall u hu] at hfalse
      exact Bool.noConfusion hfalse
    have hresult := analyzeText_of_filter_nil cnchar s.inputText console
      (List.filter_eq_nil_iff.mpr (fun v hv => by simp [hnone v hv]))
    simp [handleAnalyze, h, hresult, Call.isAnalyzeText, Call.apply]

/-- C9, evaluated: a whitespace-only input leaves the run empty, and the Latin input "abc"
empties the displayed list. -/
theorem handleAnalyze_without_ideograph_witness :
    handleAnalyze sampleCnchar blankState [] = { calls := [], state := blankState, console := [] } ∧
      ((handleAnalyze sampleCnchar staleState []).calls.any Call.isAnalyzeText = true ∧
        (handleAnalyze sampleCnchar staleState []).state =
          { inputText := staleState.inputText, analyzedChars := [], isLoading := false } ∧
        (handleAnalyze sampleCnchar staleState []).console = []) :=
  ⟨(handleAnalyze_without_ideograph sampleCnchar blankState []).1 (by decide),
   (handleAnalyze_without_ideograph sampleCnchar staleState []).2 (by decide) (by decide)⟩

/-- C9, refuted as stated: the input "abc" contains no ideograph, the displayed list holds one
record, and `handleAnalyze` invokes the analysis step and leaves the displayed list empty. -/
theorem handleAnalyze_latin_input_clears :
    (∀ u ∈ staleState.inputText, isIdeograph u = false) ∧
      staleState.analyzedChars.length = 1 ∧
      (handleAnalyze sampleCnchar staleState []).calls.any Call.isAnalyzeText = true ∧
      (handleAnalyze sampleCnchar staleState []).state.analyzedChars.length = 0 := by
  decide

/-! ## The animation adapter's fallback -/

theorem fallbackMarkup_eq_staticGlyph {Num : Type} (ops : NumberOps Num) (char : JsString)
    (width height : Num) :
    fallbackMarkup ops char width height = (staticGlyph ops char width height).markup := by
  have e1 : js "<div style=\"width: " =
      js "<" ++ (js "div" ++ (js " style=\"" ++ (js "width" ++ js ": "))) := by decide
  have e2 : js "px; height: " = js "px" ++ (js ";" ++ (js " " ++ (js "height" ++ js ": "))) := by
    decide
  have e3 : js "px; display: flex; align-items: center; justify-content: center; font-size: " =
      js "px" ++ (js ";" ++ (js " " ++ (js "display" ++ (js ": " ++ (js "flex" ++ (js ";" ++
      (js " " ++ (js "align-items" ++ (js ": " ++ (js "center" ++ (js ";" ++ (js " " ++
      (js "justify-content" ++ (js ": " ++ (js "center" ++ (js ";" ++ (js " " ++
      (js "font-size" ++ js ": ")))))))))))))))))) := by
    decide
  have e4 : js "px; color: #6b7280;\">" =
      js "px" ++ (js ";" ++ (js " " ++ (js "color" ++ (js ": " ++ (js "#6b7280" ++
      (js ";" ++ js "\">")))))) := by
    decide
  have e5 : js "</div>" = js "</" ++ (js "div" ++ js ">") := by decide
  simp only [fallbackMarkup, Element.markup, staticGlyph, List.map_cons, List.map_nil,
    List.intercalate, List.intersperse, List.flatten, e1, e2, e3, e4, e5, List.append_assoc,
    List.append_nil]

theorem controlsEffect_of_created {Num : Type} (ops : NumberOps Num)
    (hanziWriter : HanziWriter Num) (char : JsString) (width height : Num) (m : Mount Num)
    (writer : Writer Num) (drawn : JsString)
    (hchar : char.isEmpty = false) (hmounted : m.target.isSome = true)
    (hcreate : hanziWriter.create char width height = .ok (writer, drawn)) :
    (controlsEffect ops (.ok hanziWriter) char width height m).target = some drawn ∧
      (controlsEffect ops (.ok hanziWriter) char width height m).writer = some writer := by
  have hnone : m.target.isNone = false := by
    cases htarget : m.target with
    | none => simp [htarget] at hmounted
    | some content => rfl
  unfold controlsEffect
  simp only [hchar, hnone, Bool.or_self, Bool.false_eq_true, if_false]
  rw [hcreate]
  exact ⟨rfl, rfl⟩

/-- C10: when the import of the animation library is rejected, or `create` throws for the
character, the render target of `SimpleHanziAnimation(char, size)` and of
`HanziAnimationWithControls(char, width, height)` is set to the markup of one `div` whose
text is the literal character and whose width and height are the requested box in pixels,
its font size taken from the smaller side; no writer is bound, and pressing any playback
control changes nothing.  It holds for all numbers given as sizes, whatever their text. -/
theorem animation_fallback {Num : Type} (ops : NumberOps Num)
    (imported : Except JsVal (HanziWriter Num)) (char : JsString) (size width height : Num)
    (m : Mount Num) (hchar : char.isEmpty = false) (hmounted : m.target.isSome = true) :
    (loadFails imported char size size = true →
        (simpleEffect ops imported char size m).target =
            some (staticGlyph ops char size size).markup ∧
          (simpleEffect ops imported char size m).writer = none) ∧
      (loadFails imported char width height = true →
        (controlsEffect ops imported char width height m).target =
            some (staticGlyph ops char width height).markup ∧
          (controlsEffect ops imported char width height m).writer = none ∧
          ∀ control : Control,
            control.press (controlsEffect ops imported char width height m) =
              controlsEffect ops imported char width height m) := by
  have hnone : m.target.isNone = false := by
    cases htarget : m.target with
    | none => simp [htarget] at hmounted
    | some content => rfl
  constructor
  · intro hfail
    unfold simpleEffect
    simp only [hchar, hnone, Bool.or_self, Bool.false_eq_true, if_false]
    cases imported with
    | error error => exact ⟨by simp [fallbackMarkup_eq_staticGlyph], rfl⟩
    | ok hanziWriter =>
      cases hcreate : hanziWriter.create char size size with
      | ok result => simp [loadFails, hcreate, returned] at hfail
      | error error =>
        dsimp only
        rw [hcreate]
        exact ⟨by simp [fallbackMarkup_eq_staticGlyph], rfl⟩
  · intro hfail
    unfold controlsEffect
    simp only [hchar, hnone, Bool.or_self, Bool.false_eq_true, if_false]
    cases imported with
    | error error => exact ⟨by simp [fallbackMarkup_eq_staticGlyph], rfl, fun control => rfl⟩
    | ok hanziWriter =>
      cases hcreate : hanziWriter.create char width height with
      | ok result => simp [loadFails, hcreate, returned] at hfail
      | error error =>
        dsimp only
        rw [hcreate]
        exact ⟨by simp [fallbackMarkup_eq_staticGlyph], rfl, fun control => rfl⟩

set_option maxRecDepth 4096 in
/-- C10, evaluated for '人': a rejected import with `SimpleHanziAnimation` at size 80, and a
throwing `create` with `HanziAnimationWithControls` at 180 by 120. -/
theorem animation_fallback_witness :
    ((simpleEffect fiveStepOps (.error (.str (js "load failed"))) (js "人") ⟨16, by decide⟩
          freshMount).target =
        some (js "<div style=\"width: 80px; height: 80px; display: flex; align-items: center; justify-content: center; font-size: 48px; color: #6b7280;\">人</div>") ∧
      (simpleEffect fiveStepOps (.error (.str (js "load failed"))) (js "人") ⟨16, by decide⟩
          freshMount).writer = none) ∧
    ((controlsEffect fiveStepOps (.ok rejectingHanziWriter) (js "人") ⟨36, by decide⟩
          ⟨24, by decide⟩ freshMount).target =
        some (js "<div style=\"width: 180px; height: 120px; display: flex; align-items: center; justify-content: center; font-size: 72px; color: #6b7280;\">人</div>") ∧
      (controlsEffect fiveStepOps (.ok rejectingHanziWriter) (js "人") ⟨36, by decide⟩
          ⟨24, by decide⟩ freshMount).writer = none ∧
      ∀ control : Control,
        control.press (controlsEffect fiveStepOps (.ok rejectingHanziWriter) (js "人")
            ⟨36, by decide⟩ ⟨24, by decide⟩ freshMount) =
          controlsEffect fiveStepOps (.ok rejectingHanziWriter) (js "人") ⟨36, by decide⟩
            ⟨24, by decide⟩ freshMount) := by
  have hsimple := (animation_fallback fiveStepOps (.error (.str (js "load failed"))) (js "人")
    ⟨16, by decide⟩ ⟨16, by decide⟩ ⟨16, by decide⟩ freshMount (by decide) (by decide)).1
    (by decide)
  have hcontrols := (animation_fallback fiveStepOps (.ok rejectingHanziWriter) (js "人")
    ⟨16, by decide⟩ ⟨36, by decide⟩ ⟨24, by decide⟩ freshMount (by decide) (by decide)).2
    (by decide)
  have esimple : (staticGlyph fiveStepOps (js "人") ⟨16, by decide⟩ ⟨16, by decide⟩).markup =
      js "<div style=\"width: 80px; height: 80px; display: flex; align-items: center; justify-content: center; font-size: 48px; color: #6b7280;\">人</div>" := by
    decide
  have econtrols :
      (staticGlyph fiveStepOps (js "人") ⟨36, by decide⟩ ⟨24, by decide⟩).markup =
      js "<div style=\"width: 180px; height: 120px; display: flex; align-items: center; justify-content: center; font-size: 72px; color: #6b7280;\">人</div>" := by
    decide
  rw [esimple] at hsimple
  rw [econtrols] at hcontrols
  exact ⟨hsimple, hcontrols⟩

/-! ## The list-backed classifications -/

theorem find?_lists_first (table : List (JsString × List JsString)) (char : JsString)
    (before after : List (JsString × List JsString)) (entry : JsString × List JsString)
    (hsplit : table = before ++ entry :: after) (hmem : char ∈ entry.2)
    (hfirst : ∀ earlier ∈ before, char ∉ earlier.2) :
    table.find? (fun e => e.2.contains char) = some entry := by
  subst hsplit
  rw [List.find?_append, find?_lists_none before char hfirst]
  have hp : (fun e : JsString × List JsString => e.2.contains char) entry = true := by
    simpa using hmem
  rw [List.find?_cons_of_pos after hp]
  rfl

theorem find?_lists_some (table : List (JsString × List JsString)) (char : JsString)
    (entry : JsString × List JsString)
    (h : table.find? (fun e => e.2.contains char) = some entry) :
    entry ∈ table ∧ char ∈ entry.2 := by
  refine ⟨List.mem_of_find?_eq_some h, ?_⟩
  have hp := List.find?_some h
  simpa using hp

theorem wuxingMap_disjoint :
    ∀ e1 ∈ wuxingMap, ∀ c ∈ e1.2, ∀ e2 ∈ wuxingMap, c ∈ e2.2 → e1 = e2 := by
  decide

/-- C11: `getWuxing` always returns one of the five labels 金, 木, 水, 火, 土; it returns '土'
exactly when the character is in the 土 list or in none of the five lists; and '土' is itself
a member of the 土 list, so `getWuxing('土')` is a table hit whose value is the very value
returned by default for a character that no list holds. -/
theorem getWuxing_labels (char : JsString) :
    getWuxing char ∈ [js "金", js "木", js "水", js "火", js "土"] ∧
      (getWuxing char = js "土" ↔
        ((∃ entry ∈ wuxingMap, entry.1 = js "土" ∧ char ∈ entry.2) ∨
          ∀ entry ∈ wuxingMap, char ∉ entry.2)) ∧
      (∃ entry ∈ wuxingMap, entry.1 = js "土" ∧ js "土" ∈ entry.2) ∧
      wuxingMap.find? (fun e => e.2.contains (js "土")) =
        some (js "土", [js "土", js "地", js "山", js "石", js "岩", js "田", js "园", js "圆",
          js "城", js "墙"]) ∧
      getWuxing (js "土") = js "土" ∧
      ((∀ entry ∈ wuxingMap, char ∉ entry.2) → getWuxing char = getWuxing (js "土")) := by
  have hlabels : ∀ entry ∈ wuxingMap,
      entry.1 ∈ [js "金", js "木", js "水", js "火", js "土"] := by decide
  have hearth : getWuxing (js "土") = js "土" := by decide
  refine ⟨?_, ⟨?_, ?_⟩, by decide, by decide, hearth, ?_⟩
  · unfold getWuxing
    cases hfind : wuxingMap.find? (fun entry => entry.2.contains char) with
    | none => decide
    | some entry => exact hlabels entry (find?_lists_some _ _ _ hfind).1
  · intro h
    unfold getWuxing at h
    cases hfind : wuxingMap.find? (fun entry => entry.2.contains char) with
    | none =>
      right
      intro entry hentry
      have hall := List.find?_eq_none.mp hfind entry hentry
      simpa using hall
    | some entry =>
      rw [hfind] at h
      obtain ⟨hentry, hchar⟩ := find?_lists_some _ _ _ hfind
      exact Or.inl ⟨entry, hentry, h, hchar⟩
  · intro h
    unfold getWuxing
    rcases h with ⟨entry, hentry, hlabel, hchar⟩ | hnone
    · cases hfind : wuxingMap.find? (fun e => e.2.contains char) with
      | none =>
        have hall := List.find?_eq_none.mp hfind entry hentry
        simp [hchar] at hall
      | some found =>
        obtain ⟨hfound, hchar2⟩ := find?_lists_some _ _ _ hfind
        have heq : found = entry := wuxingMap_disjoint found hfound char hchar2 entry hentry hchar
        rw [heq]
        exact hlabel
    · rw [find?_lists_none _ _ hnone]
  · intro hnone
    rw [hearth]
    unfold getWuxing
    rw [find?_lists_none _ _ hnone]

/-- C13: `getStructure` returns the label of the first list, in the declaration order 左右,
上下, 左中右, 上中下, 全包围, 半包围, 独体, that contains the character, else '其他结构'.  The
lists are not disjoint: '意' is in both the 上下结构 and the 上中下结构 lists and
`getStructure('意')` is '上下结构'; every other tabled character belongs to exactly one list. -/
theorem getStructure_first_list (char : JsString) :
    structures.map Prod.fst =
        [js "左右结构", js "上下结构", js "左中右结构", js "上中下结构", js "全包围结构",
          js "半包围结构", js "独体结构"] ∧
      (∀ before entry after, structures = before ++ entry :: after → char ∈ entry.2 →
        (∀ earlier ∈ before, char ∉ earlier.2) → getStructure char = entry.1) ∧
      ((∀ entry ∈ structures, char ∉ entry.2) → getStructure char = js "其他结构") ∧
      (∃ e1 ∈ structures, ∃ e2 ∈ structures, e1.1 = js "上下结构" ∧ e2.1 = js "上中下结构" ∧
        js "意" ∈ e1.2 ∧ js "意" ∈ e2.2) ∧
      getStructure (js "意") = js "上下结构" ∧
      (∀ e1 ∈ structures, ∀ c ∈ e1.2, c ≠ js "意" → ∀ e2 ∈ structures, c ∈ e2.2 → e1 = e2) := by
  refine ⟨by decide, ?_, ?_, by decide, by decide, by decide⟩
  · intro before entry after hsplit hmem hfirst
    unfold getStructure
    rw [find?_lists_first structures char before after entry hsplit hmem hfirst]
  · intro hnone
    unfold getStructure
    rw [find?_lists_none _ _ hnone]

/-- C13, evaluated: '意' takes the label of the earlier of its two lists, '亮' that of its only
list, and '龙', which no list holds, the default. -/
theorem getStructure_first_list_witness :
    getStructure (js "意") = js "上下结构" ∧ getStructure (js "亮") = js "上中下结构" ∧
      getStructure (js "龙") = js "其他结构" :=
  ⟨(getStructure_first_list (js "意")).2.1
      [(js "左右结构", [js "他", js "们", js "你", js "我", js "好", js "的", js "在", js "是",
        js "有", js "不"])]
      (js "上下结构", [js "字", js "学", js "生", js "花", js "草", js "笑", js "哭", js "想",
        js "思", js "意"])
      (structures.drop 2) (by decide) (by decide) (by decide),
   (getStructure_first_list (js "亮")).2.1 (structures.take 3)
      (js "上中下结构", [js "意", js "章", js "竟", js "高", js "亮", js "景", js "影", js "营",
        js "警", js "察"])
      (structures.drop 4) (by decide) (by decide) (by decide),
   (getStructure_first_list (js "龙")).2.2.1 (by decide)⟩

/-! ## Throwing library calls and concatenation -/

theorem filterMap_analyzeCharResult_filter (cnchar : Cnchar) (units : List CodeUnit) :
    ((units.map (fun u => [u])).filterMap (analyzeCharResult cnchar)).map some =
        (units.filter (fun u => cnchar.succeedsOn [u])).map
          (fun u => analyzeCharResult cnchar [u]) ∧
      ((units.map (fun u => [u])).filterMap (analyzeCharResult cnchar)).map (fun r => r.char) =
        (units.filter (fun u => cnchar.succeedsOn [u])).map (fun u => [u]) := by
  induction units with
  | nil => exact ⟨rfl, rfl⟩
  | cons u rest ih =>
    cases hs : cnchar.succeedsOn [u] with
    | true =>
      obtain ⟨r, hr, hchar, -⟩ := analyzeCharResult_of_succeedsOn cnchar [u] rfl hs
      simp only [List.map_cons, List.filterMap_cons, hr, hchar, List.filter_cons, hs, if_true,
        ih.1, ih.2, and_self]
    | false =>
      have hnone : analyzeCharResult cnchar [u] = none :=
        (analyzeCharResult_eq_none_iff cnchar [u]).mpr (Or.inr hs)
      simp only [List.map_cons, List.filterMap_cons, hnone, List.filter_cons, hs,
        Bool.false_eq_true, if_false, ih.1, ih.2, and_self]

theorem mapAnalyzeChar_append (cnchar : Cnchar) (xs ys : List JsString) (console : Console) :
    mapAnalyzeChar cnchar (xs ++ ys) console =
      ((mapAnalyzeChar cnchar xs console).1 ++
          (mapAnalyzeChar cnchar ys (mapAnalyzeChar cnchar xs console).2).1,
        (mapAnalyzeChar cnchar ys (mapAnalyzeChar cnchar xs console).2).2) := by
  induction xs generalizing console with
  | nil => rfl
  | cons x rest ih =>
    rw [List.cons_append]
    simp only [mapAnalyzeChar]
    rw [ih]
    rfl

theorem analyzeText_eq_map (cnchar : Cnchar) (text : JsString) (console : Console) :
    analyzeText cnchar text console =
      ((mapAnalyzeChar cnchar ((splitChars text).filter ideographTest) console).1.filterMap id,
        (mapAnalyzeChar cnchar ((splitChars text).filter ideographTest) console).2) := by
  unfold analyzeText
  cases text with
  | nil => rfl
  | cons u rest => simp only [List.isEmpty_cons, Bool.false_eq_true, if_false]

/-- C12: nothing is fatal in analysis.  When a library call throws for a character,
`analyzeChar` returns `null` (for a single character, after logging the thrown value), and
`analyzeText` omits every such character and returns the records of the remaining ideographs
in their original order, so the result is shorter than the number of ideographs of the
input as soon as one of them makes the library throw. -/
theorem analysis_never_fatal (cnchar : Cnchar) (text : JsString) (console : Console) :
    (∀ char : JsString, cnchar.succeedsOn char = false →
        (analyzeChar cnchar char console).1 = none ∧
          (char.length = 1 → ∃ error, analyzeChar cnchar char console =
            (none, console ++ [[.str (js "分析汉字时出错:"), error]]))) ∧
      (analyzeText cnchar text console).1.map (fun r => r.char) =
        ((text.filter isIdeograph).filter (fun u => cnchar.succeedsOn [u])).map
          (fun u => [u]) ∧
      (analyzeText cnchar text console).1.map some =
        ((text.filter isIdeograph).filter (fun u => cnchar.succeedsOn [u])).map
          (fun u => (analyzeChar cnchar [u] console).1) ∧
      (analyzeText cnchar text console).1.length ≤ (text.filter isIdeograph).length ∧
      ((∃ u ∈ text, isIdeograph u = true ∧ cnchar.succeedsOn [u] = false) →
        (analyzeText cnchar text console).1.length < (text.filter isIdeograph).length) := by
  have h := filterMap_analyzeCharResult_filter cnchar (text.filter isIdeograph)
  have hlen : (analyzeText cnchar text console).1.length =
      ((text.filter isIdeograph).filter (fun u => cnchar.succeedsOn [u])).length := by
    have hl := congrArg List.length h.2
    rw [analyzeText_fst]
    simpa using hl
  refine ⟨?_, ?_, ?_, ?_, ?_⟩
  · intro char hthrows
    refine ⟨?_, ?_⟩
    · rw [analyzeChar_fst]
      exact (analyzeCharResult_eq_none_iff cnchar char).mpr (Or.inr hthrows)
    · intro hone
      obtain ⟨error, herror⟩ := analyzeCharTry_of_not_succeedsOn cnchar char hthrows
      have hne : char.isEmpty = false := by
        cases char with
        | nil => simp at hone
        | cons u rest => rfl
      exact ⟨error, by simp [analyzeChar, hone, hne, herror]⟩
  · rw [analyzeText_fst]
    exact h.2
  · rw [analyzeText_fst, h.1]
    simp only [analyzeChar_fst]
  · rw [hlen]
    exact List.length_filter_le _ _
  · rintro ⟨u, hu, hideo, hthrows⟩
    rw [hlen]
    apply List.length_filter_lt_length_iff_exists.mpr
    exact ⟨u, List.mem_filter.mpr ⟨hu, hideo⟩, by simp [hthrows]⟩

/-- C12, evaluated with a library whose `stroke` throws for '大': "人大好" has three
ideographs and yields the records of '人' and '好' only, and `analyzeChar('大')` is `null`. -/
theorem analysis_never_fatal_witness :
    (analyzeChar throwingCnchar (js "大") []).1 = none ∧
      (analyzeText throwingCnchar (js "人大好") []).1.map (fun r => r.char) =
        [js "人", js "好"] ∧
      (analyzeText throwingCnchar (js "人大好") []).1.length <
        ((js "人大好").filter isIdeograph).length :=
  ⟨((analysis_never_fatal throwingCnchar (js "人大好") []).1 (js "大") (by decide)).1,
   (analysis_never_fatal throwingCnchar (js "人大好") []).2.1,
   (analysis_never_fatal throwingCnchar (js "人大好") []).2.2.2.2
     ⟨0x5927, by decide, by decide, by decide⟩⟩

/-- C14: `analyzeText` distributes over concatenation: the records of `a + b` are the records
of `a` followed by the records of `b`, and the console after `a + b` is the console after
analysing `a` and then `b`. -/
theorem analyzeText_append (cnchar : Cnchar) (a b : JsString) (console : Console) :
    (analyzeText cnchar (a ++ b) console).1 =
        (analyzeText cnchar a console).1 ++ (analyzeText cnchar b console).1 ∧
      analyzeText cnchar (a ++ b) console =
        ((analyzeText cnchar a console).1 ++
            (analyzeText cnchar b (analyzeText cnchar a console).2).1,
          (analyzeText cnchar b (analyzeText cnchar a console).2).2) := by
  constructor
  · simp only [analyzeText_fst, List.filter_append, List.map_append, List.filterMap_append]
  · simp only [analyzeText_eq_map, splitChars, List.map_append, List.filter_append,
      mapAnalyzeChar_append, List.filterMap_append]

end HanziLearning
